import Mathlib

/-!
Verification of the PII detector core (`detector_abhinay_dasi.py`).

The embedding models the per-record classification-and-masking engine:
`process_record` together with the regex format checks and the eight
masking transforms.  Python strings are modelled through their character
lists; string slicing (which clamps) becomes `List.take` / `List.drop`
on `String.data`, while Python indexing `value[0]` (which raises
`IndexError` on an empty string) is modelled with `Option`.  A Python
`dict` is an insertion-ordered association list with unique keys;
`dict[k] = v` replaces the entry in place when the key exists and
appends otherwise.  Exceptions propagate as `Option.none` out of
`process_record`.
-/

namespace PII

/-- A JSON-scalar field value as handed to the core by the batch driver:
a string, number, boolean or null. -/
inductive Value where
  | str (s : String)
  | num (n : Int)
  | boolean (b : Bool)
  | null
deriving DecidableEq

/-- A record: an insertion-ordered mapping from field names to values. -/
abbrev Record := List (String × Value)

/-- Python `dict` assignment `d[k] = v`: replace the first entry with key
`k` in place, or append a new entry when `k` is absent. -/
def dictInsert : Record → String → Value → Record
  | [], k, v => [(k, v)]
  | (k₁, v₁) :: rest, k, v =>
    if k₁ = k then (k₁, v) :: rest else (k₁, v₁) :: dictInsert rest k v

/-- Python `dict` lookup `d[k]` (`none` models a `KeyError`). -/
def dictGet : Record → String → Option Value
  | [], _ => none
  | (k₁, v₁) :: rest, k => if k₁ = k then some v₁ else dictGet rest k

/-- Length of a string, counted in characters. -/
def strLen (s : String) : Nat := s.data.length

/-- Python slice `s[:n]` (clamped to the string's bounds). -/
def strTake (s : String) (n : Nat) : String := String.mk (s.data.take n)

/-- Python slice `s[n:]` (clamped to the string's bounds); `s[-k:]` is
`strDrop s (strLen s - k)` thanks to truncated `Nat` subtraction. -/
def strDrop (s : String) (n : Nat) : String := String.mk (s.data.drop n)

/-- Split a character list at every character satisfying `p`, keeping
empty segments (the semantics of Python `str.split(sep)` for a
one-character separator, and the skeleton of `str.split()`). -/
def splitPred (p : Char → Bool) : List Char → List (List Char)
  | [] => [[]]
  | c :: cs =>
    if p c then [] :: splitPred p cs
    else
      match splitPred p cs with
      | [] => [[c]]
      | l :: ls => (c :: l) :: ls

/-- Python `value.split("@")`. -/
def pySplitAt (s : String) : List String :=
  (splitPred (fun c => c == '@') s.data).map String.mk

/-- Python `value.split()`: split on whitespace runs, discarding empty
tokens. -/
def pySplit (s : String) : List String :=
  ((splitPred Char.isWhitespace s.data).filter (fun l => l ≠ [])).map String.mk

/-- Python `sep.join(l)`. -/
def joinWith (sep : String) : List String → String
  | [] => ""
  | [x] => x
  | x :: y :: xs => x ++ sep ++ joinWith sep (y :: xs)

/-- Python `"@" in value`. -/
def hasAt (s : String) : Bool := s.data.any (fun c => c == '@')

/-- `PHONE_PATTERN = ^\d{10}$`: exactly 10 decimal digits. -/
def PHONE_PATTERN (s : String) : Bool :=
  s.data.length == 10 && s.data.all Char.isDigit

/-- `AADHAR_PATTERN = ^\d{12}$`: exactly 12 decimal digits. -/
def AADHAR_PATTERN (s : String) : Bool :=
  s.data.length == 12 && s.data.all Char.isDigit

/-- `PASSPORT_PATTERN = ^[A-Z][0-9]{7}$` with `re.IGNORECASE`: one letter
then exactly 7 digits. -/
def PASSPORT_PATTERN (s : String) : Bool :=
  match s.data with
  | [] => false
  | c :: rest => c.isAlpha && rest.length == 7 && rest.all Char.isDigit

/-- A `\w` word character (letter, digit or underscore). -/
def isWordChar (c : Char) : Bool := c.isAlphanum || c == '_'

/-- `UPI_PATTERN = ^[\w\.\-]+@[a-z]{2,}$`: since neither character class
admits `@`, a match is exactly one `@` with a nonempty word-char/`.`/`-`
local part and a lowercase domain of length at least 2. -/
def UPI_PATTERN (s : String) : Bool :=
  match pySplitAt s with
  | [user, domain] =>
    !user.isEmpty
      && user.data.all (fun c => isWordChar c || c == '.' || c == '-')
      && decide (2 ≤ strLen domain)
      && domain.data.all Char.isLower
  | _ => false

/-- `mask_phone`: keep first 2 and last 2 characters, mask the middle. -/
def mask_phone (value : String) : String :=
  strTake value 2 ++ "XXXXXX" ++ strDrop value (strLen value - 2)

/-- `mask_aadhar`: keep first 4 and last 4 characters, mask the middle. -/
def mask_aadhar (value : String) : String :=
  strTake value 4 ++ " XXXX XXXX " ++ strDrop value (strLen value - 4)

/-- `mask_passport`: keep the first character (`value[0]`, which raises
`IndexError` on an empty string — hence `Option`), mask the rest. -/
def mask_passport (value : String) : Option String :=
  match value.data with
  | [] => none
  | c :: _ => some (String.mk [c] ++ "XXXXXXX")

/-- `mask_upi`: keep the first 2 characters, append the fixed suffix. -/
def mask_upi (value : String) : String :=
  strTake value 2 ++ "XXX@upi"

/-- `mask_name`: mask each whitespace token longer than one character,
keeping its first character; rejoin with single spaces. -/
def mask_name (value : String) : String :=
  joinWith (String.mk [' '])
    ((pySplit value).map (fun p =>
      if 1 < strLen p then strTake p 1 ++ "XXX" else p))

/-- `mask_email`: `value.split("@")` unpacked into exactly two parts
masks the local part and keeps the domain; any other shape raises a
`ValueError` that the bare `except` turns into the sentinel. -/
def mask_email (value : String) : String :=
  match pySplitAt value with
  | [user, domain] => strTake user 2 ++ "XXX@" ++ domain
  | _ => "[REDACTED_EMAIL]"

/-- `mask_address`: redact the full value. -/
def mask_address (_value : String) : String := "[REDACTED_ADDRESS]"

/-- `mask_ip`: redact the full value. -/
def mask_ip (_value : String) : String := "[REDACTED_IP]"

/-- The `combo_flags` dictionary: one boolean per combinatorial field. -/
structure ComboFlags where
  name : Bool
  email : Bool
  address : Bool
  ip_address : Bool
deriving DecidableEq

/-- The initial `combo_flags` value (all `False`). -/
def ComboFlags.init : ComboFlags := ComboFlags.mk false false false false

/-- `sum(1 for v in combo_flags.values() if v)`. -/
def comboCount (f : ComboFlags) : Nat :=
  (if f.name then 1 else 0) + (if f.email then 1 else 0)
    + (if f.address then 1 else 0) + (if f.ip_address then 1 else 0)

/-- The field-name constants of the branch chain. -/
def kPhone : String := "phone"

def kAadhar : String := "aadhar"

def kPassport : String := "passport"

def kUpiId : String := "upi_id"

def kName : String := "name"

def kEmail : String := "email"

def kAddress : String := "address"

def kIpAddress : String := "ip_address"

/-- Field names used only in concrete test records. -/
def kCity : String := "city"

def kAge : String := "age"

/-- `combo_flags.items()` in insertion order. -/
def flagItems (f : ComboFlags) : List (String × Bool) :=
  [(kName, f.name), (kEmail, f.email), (kAddress, f.address),
   (kIpAddress, f.ip_address)]

/-- The body of the classification loop for one string-valued field: the
`elif` chain of `process_record`.  The state is `(is_pii, redacted,
combo_flags)`; the passport branch threads the possible `IndexError` of
`mask_passport` (never reached, since the pattern forces 8 characters). -/
def processField (key : String) (s : String) (is_pii : Bool)
    (redacted : Record) (flags : ComboFlags) :
    Option (Bool × Record × ComboFlags) :=
  if key == kPhone && PHONE_PATTERN s then
    some (true, dictInsert redacted key (Value.str (mask_phone s)), flags)
  else if key == kAadhar && AADHAR_PATTERN s then
    some (true, dictInsert redacted key (Value.str (mask_aadhar s)), flags)
  else if key == kPassport && PASSPORT_PATTERN s then
    (mask_passport s).map (fun m =>
      (true, dictInsert redacted key (Value.str m), flags))
  else if key == kUpiId && UPI_PATTERN s then
    some (true, dictInsert redacted key (Value.str (mask_upi s)), flags)
  else if key == kName && decide (2 ≤ (pySplit s).length) then
    some (is_pii, dictInsert redacted key (Value.str (mask_name s)),
      ComboFlags.mk true flags.email flags.address flags.ip_address)
  else if key == kEmail && hasAt s then
    some (is_pii, dictInsert redacted key (Value.str (mask_email s)),
      ComboFlags.mk flags.name true flags.address flags.ip_address)
  else if key == kAddress then
    some (is_pii, dictInsert redacted key (Value.str (mask_address s)),
      ComboFlags.mk flags.name flags.email true flags.ip_address)
  else if key == kIpAddress then
    some (is_pii, dictInsert redacted key (Value.str (mask_ip s)),
      ComboFlags.mk flags.name flags.email flags.address true)
  else
    some (is_pii, dictInsert redacted key (Value.str s), flags)

/-- The `for key, val in record.items()` loop of `process_record`:
non-string values are copied through untouched, string values go through
the `elif` chain. -/
def processLoop : List (String × Value) → Bool → Record → ComboFlags →
    Option (Bool × Record × ComboFlags)
  | [], is_pii, redacted, flags => some (is_pii, redacted, flags)
  | (key, val) :: rest, is_pii, redacted, flags =>
    match val with
    | Value.str s => do
      let st ← processField key s is_pii redacted flags
      processLoop rest st.1 st.2.1 st.2.2
    | v => processLoop rest is_pii (dictInsert redacted key v) flags

/-- The rollback loop `for k, flagged in combo_flags.items(): if flagged:
redacted[k] = record[k]` (a missing key would be a `KeyError`). -/
def rollbackLoop (record : Record) :
    List (String × Bool) → Record → Option Record
  | [], redacted => some redacted
  | (k, flagged) :: rest, redacted =>
    if flagged then
      match dictGet record k with
      | some v => rollbackLoop record rest (dictInsert redacted k v)
      | none => none
    else rollbackLoop record rest redacted

/-- `process_record`: classify and mask every field, then either commit
the combinatorial maskings (when at least two combinatorial flags are
set, also forcing `is_pii`) or roll every flagged combinatorial field
back to its original value. -/
def process_record (record : Record) : Option (Record × Bool) := do
  let st ← processLoop record false [] ComboFlags.init
  let is_pii := st.1
  let redacted := st.2.1
  let flags := st.2.2
  if 2 ≤ comboCount flags then
    return (redacted, true)
  else
    let rolledBack ← rollbackLoop record (flagItems flags) redacted
    return (rolledBack, is_pii)

/-! ## Specification-level views of the loop

These definitions restate, per field, what the `elif` chain of
`process_record` computes; `processField_eq` below proves the chain
equal to them. -/

/-- The standalone-PII condition of the chain: one of the four standalone
field names together with its format check. -/
def standaloneTest (key : String) (s : String) : Bool :=
  (key == kPhone && PHONE_PATTERN s) || (key == kAadhar && AADHAR_PATTERN s)
    || (key == kPassport && PASSPORT_PATTERN s)
    || (key == kUpiId && UPI_PATTERN s)

/-- `standaloneTest` lifted to values (non-strings never classify). -/
def fieldStandalone (key : String) (v : Value) : Bool :=
  match v with
  | Value.str s => standaloneTest key s
  | _ => false

/-- The condition under which the chain sets `combo_flags["name"]`. -/
def nameTest (key : String) (v : Value) : Bool :=
  match v with
  | Value.str s => key == kName && decide (2 ≤ (pySplit s).length)
  | _ => false

/-- The condition under which the chain sets `combo_flags["email"]`. -/
def emailTest (key : String) (v : Value) : Bool :=
  match v with
  | Value.str s => key == kEmail && hasAt s
  | _ => false

/-- The condition under which the chain sets `combo_flags["address"]`:
any string value at all, empty included. -/
def addressTest (key : String) (v : Value) : Bool :=
  match v with
  | Value.str _ => key == kAddress
  | _ => false

/-- The condition under which the chain sets `combo_flags["ip_address"]`:
any string value at all, empty included. -/
def ipTest (key : String) (v : Value) : Bool :=
  match v with
  | Value.str _ => key == kIpAddress
  | _ => false

/-- A field matches some combinatorial rule. -/
def comboField (key : String) (v : Value) : Bool :=
  nameTest key v || emailTest key v || addressTest key v || ipTest key v

/-- The value the classification loop writes for one field (before any
rollback). -/
def maskedValue (key : String) (v : Value) : Value :=
  match v with
  | Value.str s =>
    if key == kPhone && PHONE_PATTERN s then Value.str (mask_phone s)
    else if key == kAadhar && AADHAR_PATTERN s then
      Value.str (mask_aadhar s)
    else if key == kPassport && PASSPORT_PATTERN s then
      Value.str ((mask_passport s).getD s)
    else if key == kUpiId && UPI_PATTERN s then Value.str (mask_upi s)
    else if key == kName && decide (2 ≤ (pySplit s).length) then
      Value.str (mask_name s)
    else if key == kEmail && hasAt s then Value.str (mask_email s)
    else if key == kAddress then Value.str (mask_address s)
    else if key == kIpAddress then Value.str (mask_ip s)
    else Value.str s
  | v => v

/-- The effect of one field on `combo_flags`. -/
def flagsStep (key : String) (v : Value) (f : ComboFlags) : ComboFlags :=
  ComboFlags.mk (f.name || nameTest key v) (f.email || emailTest key v)
    (f.address || addressTest key v) (f.ip_address || ipTest key v)

/-- The `combo_flags` state after a list of fields. -/
def flagsAfter (f : ComboFlags) (items : Record) : ComboFlags :=
  ComboFlags.mk (f.name || items.any (fun kv => nameTest kv.1 kv.2))
    (f.email || items.any (fun kv => emailTest kv.1 kv.2))
    (f.address || items.any (fun kv => addressTest kv.1 kv.2))
    (f.ip_address || items.any (fun kv => ipTest kv.1 kv.2))

/-- Apply a per-field transformation to every entry of a record. -/
def mapWith (h : String → Value → Value) (r : Record) : Record :=
  r.map (fun kv => (kv.1, h kv.1 kv.2))

/-- Which keys a list of `(name, flag)` pairs would roll back. -/
def pairsHit (pairs : List (String × Bool)) (k : String) : Bool :=
  pairs.any (fun q => q.2 && q.1 == k)

/-- The `combo_flags` value `process_record` reaches on a record. -/
def recFlags (r : Record) : ComboFlags := flagsAfter ComboFlags.init r

/-- Final per-field value when the combinatorial threshold is missed:
combinatorial hits are restored, everything else keeps its mask (or its
original value if nothing matched). -/
def keepValue (k : String) (v : Value) : Value :=
  if comboField k v then v else maskedValue k v

/-- The redacted record `process_record` returns. -/
def outputRec (r : Record) : Record :=
  if 2 ≤ comboCount (recFlags r) then mapWith maskedValue r
  else mapWith keepValue r

/-- The `is_pii` verdict `process_record` returns. -/
def recPii (r : Record) : Bool :=
  r.any (fun kv => fieldStandalone kv.1 kv.2)
    || decide (2 ≤ comboCount (recFlags r))

/-- A passport-pattern match forces a nonempty string, so
`mask_passport` succeeds on it. -/
theorem mask_passport_of_pattern (s : String)
    (h : PASSPORT_PATTERN s = true) :
    mask_passport s = some ((mask_passport s).getD s) := by
  unfold PASSPORT_PATTERN at h
  unfold mask_passport
  cases hd : s.data with
  | nil => rw [hd] at h; simp at h
  | cons c rest => simp

/-- The `elif` chain computes exactly: the disjunction of the standalone
hits into `is_pii`, the `maskedValue` into `redacted`, and `flagsStep`
on `combo_flags`. -/
theorem processField_eq (key : String) (s : String) (p : Bool)
    (acc : Record) (f : ComboFlags) :
    processField key s p acc f =
      some (p || standaloneTest key s,
            dictInsert acc key (maskedValue key (Value.str s)),
            flagsStep key (Value.str s) f) := by
  unfold processField maskedValue standaloneTest flagsStep nameTest
    emailTest addressTest ipTest
  by_cases h1 : (key == kPhone && PHONE_PATTERN s) = true
  · obtain ⟨hk, _⟩ := Bool.and_eq_true_iff.mp h1
    rw [beq_iff_eq] at hk
    subst hk
    simp_all [kPhone, kAadhar, kPassport, kUpiId, kName, kEmail, kAddress,
      kIpAddress]
  by_cases h2 : (key == kAadhar && AADHAR_PATTERN s) = true
  · obtain ⟨hk, _⟩ := Bool.and_eq_true_iff.mp h2
    rw [beq_iff_eq] at hk
    subst hk
    simp_all [kPhone, kAadhar, kPassport, kUpiId, kName, kEmail, kAddress,
      kIpAddress]
  by_cases h3 : (key == kPassport && PASSPORT_PATTERN s) = true
  · obtain ⟨hk, hpat⟩ := Bool.and_eq_true_iff.mp h3
    rw [beq_iff_eq] at hk
    subst hk
    rw [mask_passport_of_pattern s hpat]
    simp_all [kPhone, kAadhar, kPassport, kUpiId, kName, kEmail, kAddress,
      kIpAddress]
  by_cases h4 : (key == kUpiId && UPI_PATTERN s) = true
  · obtain ⟨hk, _⟩ := Bool.and_eq_true_iff.mp h4
    rw [beq_iff_eq] at hk
    subst hk
    simp_all [kPhone, kAadhar, kPassport, kUpiId, kName, kEmail, kAddress,
      kIpAddress]
  by_cases h5 : (key == kName && decide (2 ≤ (pySplit s).length)) = true
  · obtain ⟨hk, _⟩ := Bool.and_eq_true_iff.mp h5
    rw [beq_iff_eq] at hk
    subst hk
    simp_all [kPhone, kAadhar, kPassport, kUpiId, kName, kEmail, kAddress,
      kIpAddress]
  by_cases h6 : (key == kEmail && hasAt s) = true
  · obtain ⟨hk, _⟩ := Bool.and_eq_true_iff.mp h6
    rw [beq_iff_eq] at hk
    subst hk
    simp_all [kPhone, kAadhar, kPassport, kUpiId, kName, kEmail, kAddress,
      kIpAddress]
  by_cases h7 : (key == kAddress) = true
  · rw [beq_iff_eq] at h7
    subst h7
    simp_all [kPhone, kAadhar, kPassport, kUpiId, kName, kEmail, kAddress,
      kIpAddress]
  by_cases h8 : (key == kIpAddress) = true
  · rw [beq_iff_eq] at h8
    subst h8
    simp_all [kPhone, kAadhar, kPassport, kUpiId, kName, kEmail, kAddress,
      kIpAddress]
  · rw [Bool.not_eq_true] at h1 h2 h3 h4 h5 h6 h7 h8
    simp [h1, h2, h3, h4, h5, h6, h7, h8]

/-- Accumulating flags one field at a time agrees with `flagsAfter`. -/
theorem flagsAfter_cons (f : ComboFlags) (k : String) (v : Value)
    (rest : Record) :
    flagsAfter f ((k, v) :: rest) = flagsAfter (flagsStep k v f) rest := by
  simp [flagsAfter, flagsStep, Bool.or_assoc]

/-- On a non-string value no combinatorial flag moves. -/
theorem flagsStep_nonstr (k : String) (v : Value) (f : ComboFlags)
    (h : ∀ s, v ≠ Value.str s) : flagsStep k v f = f := by
  cases v with
  | str s => exact absurd rfl (h s)
  | num n => simp [flagsStep, nameTest, emailTest, addressTest, ipTest]
  | boolean b => simp [flagsStep, nameTest, emailTest, addressTest, ipTest]
  | null => simp [flagsStep, nameTest, emailTest, addressTest, ipTest]

/-- On a non-string value the loop writes the value back unchanged. -/
theorem maskedValue_nonstr (k : String) (v : Value)
    (h : ∀ s, v ≠ Value.str s) : maskedValue k v = v := by
  cases v with
  | str s => exact absurd rfl (h s)
  | num n => rfl
  | boolean b => rfl
  | null => rfl

/-- Inserting a fresh key into a dictionary appends it. -/
theorem dictInsert_of_not_mem (acc : Record) (k : String) (v : Value)
    (h : k ∉ acc.map Prod.fst) : dictInsert acc k v = acc ++ [(k, v)] := by
  induction acc with
  | nil => rfl
  | cons kv rest ih =>
    obtain ⟨k₁, v₁⟩ := kv
    simp only [List.map_cons, List.mem_cons] at h
    push_neg at h
    simp [dictInsert, Ne.symm h.1, ih h.2]

/-- The classification loop, run from any state whose accumulated
dictionary avoids the (unique) remaining keys: `is_pii` picks up the
standalone hits, `redacted` receives the `maskedValue` of each field in
order, and the flags become `flagsAfter`. -/
theorem processLoop_eq (items : Record) (p : Bool) (acc : Record)
    (f : ComboFlags) (hdisj : ∀ kv ∈ items, kv.1 ∉ acc.map Prod.fst)
    (hnd : (items.map Prod.fst).Nodup) :
    processLoop items p acc f =
      some (p || items.any (fun kv => fieldStandalone kv.1 kv.2),
            acc ++ mapWith maskedValue items, flagsAfter f items) := by
  induction items generalizing p acc f with
  | nil => simp [processLoop, mapWith, flagsAfter]
  | cons kv rest ih =>
    obtain ⟨k, v⟩ := kv
    simp only [List.map_cons, List.nodup_cons] at hnd
    have hk_acc : k ∉ acc.map Prod.fst := hdisj (k, v) (List.mem_cons_self _ _)
    have hdisj' : ∀ kv ∈ rest, kv.1 ∉ (acc ++ [(k, maskedValue k v)]).map Prod.fst := by
      intro kv hkv
      simp only [List.map_append, List.mem_append, List.map_cons,
        List.map_nil, List.mem_singleton]
      push_neg
      refine ⟨hdisj kv (List.mem_cons_of_mem _ hkv), ?_⟩
      intro heq
      exact hnd.1 (heq ▸ List.mem_map_of_mem Prod.fst hkv)
    cases v with
    | str s =>
      show (processField k s p acc f).bind _ = _
      rw [processField_eq]
      simp only [Option.some_bind]
      rw [dictInsert_of_not_mem acc k _ hk_acc]
      rw [ih _ _ _ hdisj' hnd.2]
      simp [mapWith, flagsAfter_cons, Bool.or_assoc, fieldStandalone]
    | num n =>
      show processLoop rest p (dictInsert acc k (Value.num n)) f = _
      rw [dictInsert_of_not_mem acc k _ hk_acc,
        ih _ _ _ (by simpa [maskedValue_nonstr] using hdisj') hnd.2]
      simp [mapWith, flagsAfter_cons, flagsStep_nonstr, maskedValue,
        fieldStandalone]
    | boolean b =>
      show processLoop rest p (dictInsert acc k (Value.boolean b)) f = _
      rw [dictInsert_of_not_mem acc k _ hk_acc,
        ih _ _ _ (by simpa [maskedValue_nonstr] using hdisj') hnd.2]
      simp [mapWith, flagsAfter_cons, flagsStep_nonstr, maskedValue,
        fieldStandalone]
    | null =>
      show processLoop rest p (dictInsert acc k Value.null) f = _
      rw [dictInsert_of_not_mem acc k _ hk_acc,
        ih _ _ _ (by simpa [maskedValue_nonstr] using hdisj') hnd.2]
      simp [mapWith, flagsAfter_cons, flagsStep_nonstr, maskedValue,
        fieldStandalone]

/-- In a dictionary (unique keys), membership determines lookup. -/
theorem dictGet_of_nodup (r : Record) (k : String) (v : Value)
    (hnd : (r.map Prod.fst).Nodup) (hmem : (k, v) ∈ r) :
    dictGet r k = some v := by
  induction r with
  | nil => cases hmem
  | cons kv rest ih =>
    obtain ⟨k₁, v₁⟩ := kv
    simp only [List.map_cons, List.nodup_cons] at hnd
    rcases List.mem_cons.mp hmem with heq | hrest
    · obtain ⟨hk, hv⟩ := Prod.mk.injEq .. ▸ heq
      subst hk
      subst hv
      simp [dictGet]
    · have hne : k₁ ≠ k := by
        intro e
        exact hnd.1 (e ▸ List.mem_map_of_mem Prod.fst hrest)
      simp [dictGet, hne, ih hnd.2 hrest]

/-- In a dictionary (unique keys), values at a key are unique. -/
theorem value_unique_of_nodup (r : Record) (k : String) (a b : Value)
    (hnd : (r.map Prod.fst).Nodup) (ha : (k, a) ∈ r) (hb : (k, b) ∈ r) :
    a = b := by
  induction r with
  | nil => cases ha
  | cons kv rest ih =>
    simp only [List.map_cons, List.nodup_cons] at hnd
    rcases List.mem_cons.mp ha with h₁ | h₁ <;>
      rcases List.mem_cons.mp hb with h₂ | h₂
    · rw [← h₂] at h₁
      exact (Prod.mk.injEq .. ▸ h₁).2
    · exfalso
      subst h₁
      exact hnd.1 (List.mem_map.mpr ⟨(k, b), h₂, rfl⟩)
    · exfalso
      subst h₂
      exact hnd.1 (List.mem_map.mpr ⟨(k, a), h₁, rfl⟩)
    · exact ih hnd.2 h₁ h₂

/-- If a key-determined predicate holds anywhere in a dictionary, it
holds at the (unique) entry carrying that key. -/
theorem any_eq_of_key_forced (r : Record) (k : String) (v : Value)
    (hnd : (r.map Prod.fst).Nodup) (hmem : (k, v) ∈ r)
    (P : String → Value → Bool) (hP : ∀ k' v', P k' v' = true → k' = k) :
    r.any (fun kv => P kv.1 kv.2) = P k v := by
  cases hPv : P k v
  · rw [← Bool.not_eq_true, List.any_eq_true]
    rintro ⟨kv, hkv, hPkv⟩
    obtain ⟨k', v'⟩ := kv
    have hk : k' = k := hP _ _ hPkv
    subst hk
    rw [value_unique_of_nodup r k' v' v hnd hkv hmem] at hPkv
    rw [hPv] at hPkv
    exact Bool.false_ne_true hPkv
  · exact List.any_eq_true.mpr ⟨(k, v), hmem, hPv⟩

/-- Restoring an original value rewrites the mapped dictionary
pointwise at that key. -/
theorem dictInsert_mapWith (r : Record) (k : String) (v₀ : Value)
    (h : String → Value → Value) (hnd : (r.map Prod.fst).Nodup)
    (hmem : (k, v₀) ∈ r) :
    dictInsert (mapWith h r) k v₀ =
      mapWith (fun k' v' => if k' = k then v' else h k' v') r := by
  induction r with
  | nil => cases hmem
  | cons kv rest ih =>
    obtain ⟨k₁, v₁⟩ := kv
    simp only [List.map_cons, List.nodup_cons] at hnd
    rcases List.mem_cons.mp hmem with heq | hrest
    · obtain ⟨hk, hv⟩ := Prod.mk.injEq .. ▸ heq
      subst hk
      subst hv
      have hcongr :
          List.map (fun kv : String × Value =>
            (kv.1, if kv.1 = k then kv.2 else h kv.1 kv.2)) rest
            = List.map (fun kv : String × Value =>
              (kv.1, h kv.1 kv.2)) rest := by
        apply List.map_congr_left
        intro kv hkv
        have hne : kv.1 ≠ k := fun e =>
          hnd.1 (List.mem_map.mpr ⟨kv, hkv, e⟩)
        simp [hne]
      simp [mapWith, dictInsert, hcongr]
    · have hne : k₁ ≠ k := fun e =>
        hnd.1 (List.mem_map.mpr ⟨(k, v₀), hrest, e.symm⟩)
      simp only [mapWith, List.map_cons, dictInsert, if_neg hne]
      exact congrArg _ (ih hnd.2 hrest)

/-- The rollback loop on a mapped dictionary restores the original value
at every flagged key, provided each flagged key is present. -/
theorem rollbackLoop_mapWith (r : Record) (hnd : (r.map Prod.fst).Nodup)
    (pairs : List (String × Bool)) (h : String → Value → Value)
    (hpres : ∀ q ∈ pairs, q.2 = true → ∃ v₀, (q.1, v₀) ∈ r) :
    rollbackLoop r pairs (mapWith h r) =
      some (mapWith (fun k v => if pairsHit pairs k then v else h k v) r) := by
  induction pairs generalizing h with
  | nil => simp [rollbackLoop, pairsHit]
  | cons q rest ih =>
    obtain ⟨c, flag⟩ := q
    cases flag with
    | false =>
      show rollbackLoop r rest (mapWith h r) = _
      rw [ih h (fun q hq => hpres q (List.mem_cons_of_mem _ hq))]
      simp [pairsHit, List.any_cons]
    | true =>
      obtain ⟨v₀, hv₀⟩ := hpres (c, true) (List.mem_cons_self _ _) rfl
      have hget := dictGet_of_nodup r c v₀ hnd hv₀
      simp only [rollbackLoop, hget, if_true]
      rw [dictInsert_mapWith r c v₀ h hnd hv₀]
      rw [ih _ (fun q hq => hpres q (List.mem_cons_of_mem _ hq))]
      congr 1
      apply List.map_congr_left
      intro kv _
      obtain ⟨k, v⟩ := kv
      simp only [pairsHit, List.any_cons, Bool.true_and]
      by_cases hrest : rest.any (fun q => q.2 && q.1 == k) = true
      · simp [hrest]
      · rw [Bool.not_eq_true] at hrest
        by_cases hkc : k = c
        · subst hkc
          simp [hrest]
        · have hcf : (c == k) = false := beq_eq_false_iff_ne.mpr (Ne.symm hkc)
          simp [hrest, hkc, hcf]

/-- `nameTest` fires only on the `name` key. -/
theorem nameTest_key (k : String) (v : Value) (h : nameTest k v = true) :
    k = kName := by
  cases v with
  | str s => exact beq_iff_eq.mp (Bool.and_eq_true_iff.mp h).1
  | num n => simp [nameTest] at h
  | boolean b => simp [nameTest] at h
  | null => simp [nameTest] at h

/-- `emailTest` fires only on the `email` key. -/
theorem emailTest_key (k : String) (v : Value) (h : emailTest k v = true) :
    k = kEmail := by
  cases v with
  | str s => exact beq_iff_eq.mp (Bool.and_eq_true_iff.mp h).1
  | num n => simp [emailTest] at h
  | boolean b => simp [emailTest] at h
  | null => simp [emailTest] at h

/-- `addressTest` fires only on the `address` key. -/
theorem addressTest_key (k : String) (v : Value)
    (h : addressTest k v = true) : k = kAddress := by
  cases v with
  | str s => exact beq_iff_eq.mp h
  | num n => simp [addressTest] at h
  | boolean b => simp [addressTest] at h
  | null => simp [addressTest] at h

/-- `ipTest` fires only on the `ip_address` key. -/
theorem ipTest_key (k : String) (v : Value) (h : ipTest k v = true) :
    k = kIpAddress := by
  cases v with
  | str s => exact beq_iff_eq.mp h
  | num n => simp [ipTest] at h
  | boolean b => simp [ipTest] at h
  | null => simp [ipTest] at h

/-- For an entry of a dictionary, `any` of a key-forced test conjoined
with the key comparison collapses to the test at that entry. -/
theorem anyTest_and_beq (r : Record) (hnd : (r.map Prod.fst).Nodup)
    (k : String) (v : Value) (hmem : (k, v) ∈ r) (cname : String)
    (test : String → Value → Bool)
    (hkey : ∀ k' v', test k' v' = true → k' = cname) :
    (r.any (fun kv => test kv.1 kv.2) && (cname == k)) = test k v := by
  by_cases hk : cname = k
  · subst hk
    rw [any_eq_of_key_forced r cname v hnd hmem test hkey]
    simp
  · have h1 : (cname == k) = false := beq_eq_false_iff_ne.mpr hk
    have h2 : test k v = false := by
      cases htv : test k v
      · rfl
      · exact absurd (hkey k v htv) (Ne.symm hk)
    simp [h1, h2]

/-- For an entry of the record, the rollback loop touches its key
exactly when the entry itself matched a combinatorial rule. -/
theorem pairsHit_eq_comboField (r : Record)
    (hnd : (r.map Prod.fst).Nodup) (k : String) (v : Value)
    (hmem : (k, v) ∈ r) :
    pairsHit (flagItems (flagsAfter ComboFlags.init r)) k
      = comboField k v := by
  have hn := anyTest_and_beq r hnd k v hmem kName nameTest nameTest_key
  have he := anyTest_and_beq r hnd k v hmem kEmail emailTest emailTest_key
  have ha :=
    anyTest_and_beq r hnd k v hmem kAddress addressTest addressTest_key
  have hi := anyTest_and_beq r hnd k v hmem kIpAddress ipTest ipTest_key
  simp only [pairsHit, flagItems, List.any_cons, List.any_nil,
    Bool.or_false]
  rw [show (flagsAfter ComboFlags.init r).name
    = r.any (fun kv => nameTest kv.1 kv.2) from rfl]
  rw [show (flagsAfter ComboFlags.init r).email
    = r.any (fun kv => emailTest kv.1 kv.2) from rfl]
  rw [show (flagsAfter ComboFlags.init r).address
    = r.any (fun kv => addressTest kv.1 kv.2) from rfl]
  rw [show (flagsAfter ComboFlags.init r).ip_address
    = r.any (fun kv => ipTest kv.1 kv.2) from rfl]
  rw [hn, he, ha, hi]
  simp [comboField, Bool.or_assoc]

/-- The full behaviour of `process_record` on a record with unique
keys: it returns `outputRec` and `recPii`. -/
theorem process_record_eq (r : Record)
    (hnd : (r.map Prod.fst).Nodup) :
    process_record r = some (outputRec r, recPii r) := by
  unfold process_record
  rw [processLoop_eq r false [] ComboFlags.init (by simp) hnd]
  by_cases hc : 2 ≤ comboCount (flagsAfter ComboFlags.init r)
  · simp only [Option.pure_def, Option.bind_eq_bind, Option.some_bind]
    rw [if_pos hc]
    simp [outputRec, recPii, recFlags, hc]
  · simp only [Option.pure_def, Option.bind_eq_bind, Option.some_bind]
    rw [if_neg hc]
    have hpres : ∀ q ∈ flagItems (flagsAfter ComboFlags.init r),
        q.2 = true → ∃ v₀, (q.1, v₀) ∈ r := by
      intro q hq hflag
      simp only [flagItems, List.mem_cons, List.not_mem_nil, or_false] at hq
      rcases hq with h | h | h | h
      · subst h
        obtain ⟨kv, hkv, hp⟩ := List.any_eq_true.mp hflag
        have hk := nameTest_key kv.1 kv.2 hp
        exact ⟨kv.2, hk ▸ (show (kv.1, kv.2) ∈ r from hkv)⟩
      · subst h
        obtain ⟨kv, hkv, hp⟩ := List.any_eq_true.mp hflag
        have hk := emailTest_key kv.1 kv.2 hp
        exact ⟨kv.2, hk ▸ (show (kv.1, kv.2) ∈ r from hkv)⟩
      · subst h
        obtain ⟨kv, hkv, hp⟩ := List.any_eq_true.mp hflag
        have hk := addressTest_key kv.1 kv.2 hp
        exact ⟨kv.2, hk ▸ (show (kv.1, kv.2) ∈ r from hkv)⟩
      · subst h
        obtain ⟨kv, hkv, hp⟩ := List.any_eq_true.mp hflag
        have hk := ipTest_key kv.1 kv.2 hp
        exact ⟨kv.2, hk ▸ (show (kv.1, kv.2) ∈ r from hkv)⟩
    rw [List.nil_append,
      rollbackLoop_mapWith r hnd (flagItems (flagsAfter ComboFlags.init r))
        maskedValue hpres]
    simp only [Option.some_bind]
    have hout : mapWith (fun k v =>
        if pairsHit (flagItems (flagsAfter ComboFlags.init r)) k then v
        else maskedValue k v) r = mapWith keepValue r := by
      apply List.map_congr_left
      intro kv hkv
      obtain ⟨k, v⟩ := kv
      have := pairsHit_eq_comboField r hnd k v hkv
      simp only [keepValue]
      rw [this]
    rw [hout]
    simp [outputRec, recPii, recFlags, hc]

/-- `mapWith` keeps the key column intact. -/
theorem mapWith_keys (h : String → Value → Value) (r : Record) :
    (mapWith h r).map Prod.fst = r.map Prod.fst := by
  simp only [mapWith, List.map_map]
  rfl

/-- `mapWith` keeps the entry count intact. -/
theorem mapWith_length (h : String → Value → Value) (r : Record) :
    (mapWith h r).length = r.length := by
  simp [mapWith]

/-- A field that matches no rule is written back unchanged. -/
theorem maskedValue_id (k : String) (v : Value)
    (hst : fieldStandalone k v = false) (hcf : comboField k v = false) :
    maskedValue k v = v := by
  cases v with
  | num n => rfl
  | boolean b => rfl
  | null => rfl
  | str s =>
    simp only [fieldStandalone, standaloneTest, Bool.or_eq_false_iff] at hst
    simp only [comboField, nameTest, emailTest, addressTest, ipTest,
      Bool.or_eq_false_iff] at hcf
    obtain ⟨⟨⟨h1, h2⟩, h3⟩, h4⟩ := hst
    obtain ⟨⟨⟨h5, h6⟩, h7⟩, h8⟩ := hcf
    simp [maskedValue, h1, h2, h3, h4, h5, h6, h7, h8]

/-- Concatenation adds character counts. -/
theorem strLen_append (a b : String) :
    strLen (a ++ b) = strLen a + strLen b := by
  cases a
  cases b
  simp [strLen, String.append]

/-! ## Claim theorems -/

/-- Claim C1: for every record (unique keys), `process_record` returns
`is_pii = true` iff at least one field classified standalone (its name
is one of phone/aadhar/passport/upi_id and its string value matches the
format check) or at least two of the four combinatorial flags were set;
the iff holds in both directions. -/
theorem pii_iff_standalone_or_combo (r : Record)
    (hnd : (r.map Prod.fst).Nodup) (red : Record) (pii : Bool)
    (h : process_record r = some (red, pii)) :
    pii = true ↔
      ((∃ kv ∈ r, fieldStandalone kv.1 kv.2 = true)
        ∨ 2 ≤ comboCount (recFlags r)) := by
  rw [process_record_eq r hnd] at h
  have hpii : recPii r = pii := congrArg Prod.snd (Option.some.inj h)
  subst hpii
  simp [recPii, List.any_eq_true]

/-- Witness for C1 at the record `{"phone": "9876543210"}`. -/
theorem pii_iff_standalone_or_combo_witness :
    (true : Bool) = true ↔
      ((∃ kv ∈ ([(kPhone, Value.str (r"9876543210"))] : Record),
        fieldStandalone kv.1 kv.2 = true)
        ∨ 2 ≤ comboCount (recFlags [(kPhone, Value.str (r"9876543210"))])) :=
  pii_iff_standalone_or_combo [(kPhone, Value.str (r"9876543210"))]
    (by decide) [(kPhone, Value.str (r"98XXXXXX10"))] true (by decide)

/-- Claim C3: the redacted record has exactly the keys of the input, in
the same order (hence the same key set), and the same entry count. -/
theorem keys_preserved (r : Record) (hnd : (r.map Prod.fst).Nodup)
    (red : Record) (pii : Bool) (h : process_record r = some (red, pii)) :
    red.map Prod.fst = r.map Prod.fst ∧ red.length = r.length := by
  rw [process_record_eq r hnd] at h
  have hred : outputRec r = red := congrArg Prod.fst (Option.some.inj h)
  subst hred
  unfold outputRec
  by_cases hc : 2 ≤ comboCount (recFlags r)
  · rw [if_pos hc]
    exact ⟨mapWith_keys maskedValue r, mapWith_length maskedValue r⟩
  · rw [if_neg hc]
    exact ⟨mapWith_keys keepValue r, mapWith_length keepValue r⟩

/-- Witness for C3 at `{"phone": "9876543210", "name": null}`. -/
theorem keys_preserved_witness :
    ([(kPhone, Value.str (r"98XXXXXX10")), (kName, Value.null)] : Record).map
        Prod.fst
      = ([(kPhone, Value.str (r"9876543210")),
          (kName, Value.null)] : Record).map Prod.fst
    ∧ ([(kPhone, Value.str (r"98XXXXXX10")),
        (kName, Value.null)] : Record).length
      = ([(kPhone, Value.str (r"9876543210")),
          (kName, Value.null)] : Record).length :=
  keys_preserved
    [(kPhone, Value.str (r"9876543210")), (kName, Value.null)] (by decide)
    [(kPhone, Value.str (r"98XXXXXX10")), (kName, Value.null)] true
    (by decide)

/-- Claim C7: `process_record` is total on its public interface — on
every string-keyed mapping of string/number/boolean/null values
(including the empty mapping) it returns a pair and no exception
(modelled as `none`) escapes. -/
theorem process_record_total (r : Record)
    (hnd : (r.map Prod.fst).Nodup) :
    ∃ out : Record × Bool, process_record r = some out :=
  ⟨(outputRec r, recPii r), process_record_eq r hnd⟩

/-- Witness for C7 at the empty mapping. -/
theorem process_record_total_witness :
    ∃ out : Record × Bool, process_record [] = some out :=
  process_record_total [] List.nodup_nil

/-- Claim C8: `process_record` is deterministic and pure — it is a
mathematical function of the record alone, so identical inputs always
give identical `(RedactedRecord, is_pii)` outputs. -/
theorem process_record_deterministic (r₁ r₂ : Record) (h : r₁ = r₂) :
    process_record r₁ = process_record r₂ := by rw [h]

/-- Witness for C8: two invocations on the same one-field record. -/
theorem process_record_deterministic_witness :
    process_record [(kPhone, Value.str (r"9876543210"))]
      = process_record [(kPhone, Value.str (r"9876543210"))] :=
  process_record_deterministic [(kPhone, Value.str (r"9876543210"))]
    [(kPhone, Value.str (r"9876543210"))] rfl

/-- Claim C2: when fewer than two combinatorial flags are set, every
field that matched a combinatorial rule is present in the output with
its exact original value (the rollback), and `is_pii` is exactly the
standalone verdict. -/
theorem rollback_restores_originals (r : Record)
    (hnd : (r.map Prod.fst).Nodup) (red : Record) (pii : Bool)
    (h : process_record r = some (red, pii))
    (hc : comboCount (recFlags r) < 2) :
    pii = r.any (fun kv => fieldStandalone kv.1 kv.2)
      ∧ ∀ kv ∈ r, comboField kv.1 kv.2 = true →
        dictGet red kv.1 = some kv.2 := by
  rw [process_record_eq r hnd] at h
  have hp := Option.some.inj h
  have hred : outputRec r = red := congrArg Prod.fst hp
  have hpii : recPii r = pii := congrArg Prod.snd hp
  subst hred
  subst hpii
  have hc' : ¬2 ≤ comboCount (recFlags r) := Nat.not_le.mpr hc
  constructor
  · simp [recPii, hc']
  · intro kv hkv hcombo
    have hmem : (kv.1, kv.2) ∈ mapWith keepValue r := by
      simp only [mapWith]
      refine List.mem_map.mpr ⟨kv, hkv, ?_⟩
      show (kv.1, keepValue kv.1 kv.2) = (kv.1, kv.2)
      rw [keepValue, if_pos hcombo]
    have hnd' : ((mapWith keepValue r).map Prod.fst).Nodup := by
      rw [mapWith_keys]
      exact hnd
    have hout : outputRec r = mapWith keepValue r := by
      rw [outputRec, if_neg hc']
    rw [hout]
    exact dictGet_of_nodup _ kv.1 kv.2 hnd' hmem

/-- Witness for C2 at `{"name": "Ravi Kumar"}`: one combinatorial hit,
rolled back byte-for-byte, `is_pii = false`. -/
theorem rollback_restores_originals_witness :
    (false : Bool)
      = ([(kName, Value.str (r"Ravi Kumar"))] : Record).any
          (fun kv => fieldStandalone kv.1 kv.2)
    ∧ ∀ kv ∈ ([(kName, Value.str (r"Ravi Kumar"))] : Record),
        comboField kv.1 kv.2 = true →
        dictGet [(kName, Value.str (r"Ravi Kumar"))] kv.1 = some kv.2 :=
  rollback_restores_originals [(kName, Value.str (r"Ravi Kumar"))]
    (by decide) [(kName, Value.str (r"Ravi Kumar"))] false (by decide)
    (by decide)

/-- Claim C9: a record judged non-PII comes back value-for-value equal
to the input — no mask survives into a non-PII output. -/
theorem not_pii_implies_unchanged (r : Record)
    (hnd : (r.map Prod.fst).Nodup) (red : Record)
    (h : process_record r = some (red, false)) : red = r := by
  rw [process_record_eq r hnd] at h
  have hp := Option.some.inj h
  have hred : outputRec r = red := congrArg Prod.fst hp
  have hpii : recPii r = false := congrArg Prod.snd hp
  rw [recPii, Bool.or_eq_false_iff] at hpii
  obtain ⟨hany, hdec⟩ := hpii
  have hc : ¬2 ≤ comboCount (recFlags r) := by simpa using hdec
  rw [← hred, outputRec, if_neg hc]
  have hkeep : ∀ kv ∈ r, keepValue kv.1 kv.2 = kv.2 := by
    intro kv hkv
    have hstand : fieldStandalone kv.1 kv.2 = false := by
      cases hfs : fieldStandalone kv.1 kv.2
      · rfl
      · exfalso
        have hx : r.any (fun kv => fieldStandalone kv.1 kv.2) = true :=
          List.any_eq_true.mpr ⟨kv, hkv, hfs⟩
        rw [hany] at hx
        exact Bool.false_ne_true hx
    by_cases hcf : comboField kv.1 kv.2 = true
    · simp [keepValue, hcf]
    · rw [Bool.not_eq_true] at hcf
      rw [keepValue, if_neg (by simp [hcf])]
      exact maskedValue_id kv.1 kv.2 hstand hcf
  have : mapWith keepValue r = r := by
    simp only [mapWith]
    conv_rhs => rw [← List.map_id r]
    apply List.map_congr_left
    intro kv hkv
    show (kv.1, keepValue kv.1 kv.2) = id kv
    rw [hkeep kv hkv]
    rfl
  exact this

/-- Witness for C9 at `{"city": "Mumbai", "age": 30}` (nothing
classifies, verdict false, output identical). -/
theorem not_pii_implies_unchanged_witness :
    ([(kCity, Value.str (r"Mumbai")), (kAge, Value.num 30)] : Record)
      = [(kCity, Value.str (r"Mumbai")), (kAge, Value.num 30)] :=
  not_pii_implies_unchanged
    [(kCity, Value.str (r"Mumbai")), (kAge, Value.num 30)] (by decide)
    [(kCity, Value.str (r"Mumbai")), (kAge, Value.num 30)] (by decide)

/-- Length of a string built from a character list. -/
theorem strLen_mk (l : List Char) : strLen (String.mk l) = l.length := rfl

/-- A Python slice `s[:n]` keeps only the characters that exist. -/
theorem strLen_strTake (s : String) (n : Nat) :
    strLen (strTake s n) = min n (strLen s) := by
  simp [strTake, strLen]

/-- A Python slice `s[n:]` keeps only the characters that exist. -/
theorem strLen_strDrop (s : String) (n : Nat) :
    strLen (strDrop s n) = strLen s - n := by
  simp [strDrop, strLen]

/-- Claim C4 counterexample: a record whose `address` and `ip_address`
fields are both the EMPTY string is flagged `is_pii = true` and both
values are masked — the claim predicted NonPII treatment (copied
unchanged, no flag, `is_pii = false`). -/
theorem empty_address_counts_cex :
    process_record
        [(kAddress, Value.str (r"")), (kIpAddress, Value.str (r""))]
      = some ([(kAddress, Value.str (r"[REDACTED_ADDRESS]")),
               (kIpAddress, Value.str (r"[REDACTED_IP]"))], true) := by
  decide

/-- Claim C4 (amended): the `address` / `ip_address` branches perform no
non-empty check — a field with either name and ANY string value, the
empty string included, sets its combinatorial hit flag and counts
toward the threshold of 2; with both present the record is flagged and
both values are replaced by their sentinels. -/
theorem address_always_combinatorial (s t : String) :
    process_record [(kAddress, Value.str s), (kIpAddress, Value.str t)]
      = some ([(kAddress, Value.str (r"[REDACTED_ADDRESS]")),
               (kIpAddress, Value.str (r"[REDACTED_IP]"))], true) := rfl

/-- Witness for the amended C4 at `{"address": "x", "ip_address": ""}`. -/
theorem address_always_combinatorial_witness :
    process_record
        [(kAddress, Value.str (r"x")), (kIpAddress, Value.str (r""))]
      = some ([(kAddress, Value.str (r"[REDACTED_ADDRESS]")),
               (kIpAddress, Value.str (r"[REDACTED_IP]"))], true) :=
  address_always_combinatorial (r"x") (r"")

/-- Claim C5 counterexample: `mask_passport` applied to the empty string
does not return a string — Python `value[0]` raises `IndexError`
(indexing, unlike slicing, does not clamp). -/
theorem mask_passport_empty_cex : mask_passport (r"") = none := rfl

/-- Claim C5 (amended): every masking transform except `mask_passport`
is total on all strings, with slices clamped to the characters that
exist — witnessed by the exact masked lengths of the slicing transforms
on arbitrary (also short or empty) input; `mask_passport` returns a
string exactly on non-empty input and raises on the empty string. -/
theorem mask_transforms_total (s : String) :
    ((mask_passport s).isSome ↔ s ≠ (r""))
    ∧ strLen (mask_phone s) = min 2 (strLen s) + 6 + min 2 (strLen s)
    ∧ strLen (mask_aadhar s) = min 4 (strLen s) + 11 + min 4 (strLen s)
    ∧ strLen (mask_upi s) = min 2 (strLen s) + 7 := by
  refine ⟨?_, ?_, ?_, ?_⟩
  · obtain ⟨data⟩ := s
    cases data with
    | nil => decide
    | cons c cs =>
      constructor
      · intro _ heq
        have hd := congrArg String.data heq
        simp at hd
      · intro _
        rfl
  · rw [mask_phone, strLen_append, strLen_append, strLen_strTake,
      strLen_strDrop, show strLen (r"XXXXXX") = 6 from rfl]
    omega
  · rw [mask_aadhar, strLen_append, strLen_append, strLen_strTake,
      strLen_strDrop, show strLen (r" XXXX XXXX ") = 11 from rfl]
    omega
  · rw [mask_upi, strLen_append, strLen_strTake,
      show strLen (r"XXX@upi") = 7 from rfl]

/-- Witness for the amended C5 at a short string. -/
theorem mask_transforms_total_witness :
    ((mask_passport (r"a")).isSome ↔ (r"a") ≠ (r""))
    ∧ strLen (mask_phone (r"a"))
      = min 2 (strLen (r"a")) + 6 + min 2 (strLen (r"a"))
    ∧ strLen (mask_aadhar (r"a"))
      = min 4 (strLen (r"a")) + 11 + min 4 (strLen (r"a"))
    ∧ strLen (mask_upi (r"a")) = min 2 (strLen (r"a")) + 7 :=
  mask_transforms_total (r"a")

/-- Claim C6: when the value splits at `@` into exactly two parts,
`mask_email` keeps the first 2 characters of the local part, appends
the fixed `XXX` token and `@`, and keeps the domain unchanged; for any
other split shape (zero or several `@`) it returns the fixed sentinel
instead of propagating the unpacking failure. -/
theorem mask_email_two_parts (s : String) :
    (∀ user domain : String, pySplitAt s = [user, domain] →
      mask_email s = strTake user 2 ++ "XXX@" ++ domain)
    ∧ ((pySplitAt s).length ≠ 2 → mask_email s = "[REDACTED_EMAIL]") := by
  constructor
  · intro user domain hsplit
    unfold mask_email
    rw [hsplit]
  · intro hlen
    unfold mask_email
    rcases hsp : pySplitAt s with _ | ⟨a, _ | ⟨b, _ | ⟨c, rest⟩⟩⟩
    · rfl
    · rfl
    · exact absurd (by rw [hsp]; rfl : (pySplitAt s).length = 2) hlen
    · rfl

/-- Witness for C6: one well-formed email, one with two `@`. -/
theorem mask_email_two_parts_witness :
    mask_email (r"ravi.kumar@example.com")
      = strTake (r"ravi.kumar") 2 ++ "XXX@" ++ (r"example.com")
    ∧ mask_email (r"a@b@c") = "[REDACTED_EMAIL]" :=
  ⟨(mask_email_two_parts (r"ravi.kumar@example.com")).1 (r"ravi.kumar")
      (r"example.com") (by decide),
   (mask_email_two_parts (r"a@b@c")).2 (by decide)⟩

/-- Claim C10: `mask_name` is the identity on strings whose whitespace
tokens all have one character and are joined by single spaces, and
consequently there is a record flagged through the combinatorial
threshold whose `name` field survives in the output byte-for-byte. -/
theorem mask_name_short_tokens_identity :
    (∀ s : String, (∀ t ∈ pySplit s, strLen t = 1) →
      s = joinWith (String.mk [' ']) (pySplit s) → mask_name s = s)
    ∧ process_record
        [(kName, Value.str (r"a b")), (kEmail, Value.str (r"x@y"))]
      = some ([(kName, Value.str (r"a b")),
               (kEmail, Value.str (r"xXXX@y"))], true) := by
  constructor
  · intro s hall hjoin
    unfold mask_name
    have hmap : (pySplit s).map
        (fun p => if 1 < strLen p then strTake p 1 ++ "XXX" else p)
        = pySplit s := by
      conv_rhs => rw [← List.map_id (pySplit s)]
      apply List.map_congr_left
      intro t ht
      show (if 1 < strLen t then strTake t 1 ++ "XXX" else t) = id t
      rw [if_neg (by rw [hall t ht]; omega)]
      rfl
    rw [hmap]
    exact hjoin.symm
  · decide

/-- Witness for C10's universally quantified part at `"a b"`. -/
theorem mask_name_short_tokens_identity_witness :
    mask_name (r"a b") = r"a b" :=
  mask_name_short_tokens_identity.1 (r"a b") (by decide) (by decide)

end PII
